import Mathlib

/-!
Verification of the memgraph query-pipeline sources.

The development shallowly embeds the pieces of the repository that the
checked properties talk about:

* `Interpreter::Interpret` and `Interpreter::ExecutePlan` (query/interpreter.hpp),
  including the plan cache with TTL expiry and the index-creation invalidation
  loop;
* `PlanPrinter` (query/plan/pretty_print.cpp);
* the receive loop of `rpc::Client::Call` (communication/rpc/client.cpp);
* `Edge::CloneData` (storage/edge.hpp);
* the runtime operators needed by the `EdgeUniquenessInOptional` end-to-end
  test, modelled from the specification because their cursor implementations
  are outside the provided sources.

C++ exceptions are modelled as explicit error results, the result stream as a
list of emitted events, and the concurrent plan cache as an association list
(the claims under study are all single-invocation, so the sequential view is
faithful).
-/

/-- TypedValue, restricted to the variants the embedded code paths touch.
Elapsed times and cost estimates are C++ doubles; they are carried as opaque
`Int` payloads since no checked property inspects their numeric value. -/
inductive TypedValue
  | null
  | bool (b : Bool)
  | int (n : Int)
  | str (s : String)
  deriving DecidableEq, Repr

/-- Errors thrown by the interpreter paths under study
(query/exceptions.hpp). -/
inductive QueryError
  | unprovidedParameter (name : String)
  | queryRuntime
  | other
  deriving DecidableEq, Repr

/-- An event emitted to the result stream: `stream.Header`, `stream.Result`
or `stream.Summary`. -/
inductive StreamEvent
  | header (h : List String)
  | result (row : List TypedValue)
  | summary (m : List (String × TypedValue))
  deriving DecidableEq, Repr

/-- A symbol: name, frame slot (`position_`) and the source token position
(`-1` when the expression was aliased, mirroring the C++ sentinel). -/
structure QSymbol where
  name : String
  position : Nat
  tokenPosition : Int
  deriving DecidableEq, Repr

/-- Modelled from the spec: the symbol table (`SymbolTable` of the semantic
phase, not under the provided sources). It maps slots to symbols with
`max_position` = next free slot; `CreateSymbol` hands out slots
sequentially. -/
structure SymbolTable where
  maxPosition : Nat
  symbols : List QSymbol
  deriving DecidableEq, Repr

def SymbolTable.empty : SymbolTable := ⟨0, []⟩

/-- Modelled from the spec: `SymbolTable::CreateSymbol` assigns the next free
slot and bumps `max_position`. -/
def SymbolTable.CreateSymbol (t : SymbolTable) (name : String)
    (tokenPos : Int) : QSymbol × SymbolTable :=
  let sym : QSymbol := ⟨name, t.maxPosition, tokenPos⟩
  (sym, ⟨t.maxPosition + 1, t.symbols ++ [sym]⟩)

/-- A symbol table reachable from the empty table by `CreateSymbol` calls;
this is the only way the semantic phase builds tables. -/
inductive SymbolTable.Built : SymbolTable → Prop
  | empty : SymbolTable.Built SymbolTable.empty
  | create (t : SymbolTable) (name : String) (tokenPos : Int) :
      SymbolTable.Built t → SymbolTable.Built (t.CreateSymbol name tokenPos).2

/-- `StrippedQuery`: hash, literal bindings (`literals()`), recorded user
`$`-parameters (`parameters()`, token position → name) and named expressions
(`named_expressions()`, token position → source text). -/
structure StrippedQuery where
  hash : Nat
  literals : List (Int × TypedValue)
  parameters : List (Int × String)
  namedExpressions : List (Int × String)
  deriving DecidableEq, Repr

/-- `utils::FindOr`: look a key up in an association list, fall back to the
given default (only the `.first` component of the C++ pair is used). -/
def findOr (m : List (Int × String)) (key : Int) (deflt : String) : String :=
  match m.find? (fun p => p.1 == key) with
  | some p => p.2
  | none => deflt

/-- The dynamic type of a plan's root operator, as discriminated by the
`dynamic_cast` chain of `Interpreter::ExecutePlan`. -/
inductive OpKind
  | createNode
  | createExpand
  | setProperty
  | setProperties
  | setLabels
  | removeProperty
  | removeLabels
  | delete
  | merge
  | createIndex
  | produce
  | scanAll
  | filter
  | expand
  | optional
  | aggregate
  | orderBy
  | distinct
  | unwind
  | accumulate
  | cartesian
  | skip
  | limit
  | once
  deriving DecidableEq, Repr

/-- The ten root-operator types the `dynamic_cast` chain of
`Interpreter::ExecutePlan` accepts for a plan without output symbols. -/
def drainableRoot (k : OpKind) : Bool :=
  match k with
  | .createNode | .createExpand | .setProperty | .setProperties | .setLabels
  | .removeProperty | .removeLabels | .delete | .merge | .createIndex => true
  | _ => false

/-- A compiled logical plan as `ExecutePlan` observes it: the root operator's
dynamic type, its `OutputSymbols`, the frame states produced by the successful
`Pull` calls of the root cursor, and an optional error the cursor throws after
those pulls. -/
structure PlanModel where
  kind : OpKind
  outputSymbols : List QSymbol
  cursorPulls : List (List TypedValue)
  pullError : Option QueryError
  deriving DecidableEq, Repr

/-- `Frame::operator[]`: read the value at a symbol's slot. -/
def frameGet (frame : List TypedValue) (pos : Nat) : TypedValue :=
  frame.getD pos TypedValue.null

/-- Outcome of `ExecutePlan`: normal return (carrying
`ctx.is_index_created_`, which the `CreateIndex` cursor sets on success — the
spec: the cache is invalidated when a `CreateIndex` plan succeeds), or a
propagating exception. -/
inductive ExecOutcome
  | ok (isIndexCreated : Bool)
  | error (e : QueryError)
  deriving DecidableEq, Repr

/-- Observable effects of one `Interpreter::ExecutePlan` call. -/
structure ExecResult where
  events : List StreamEvent
  outcome : ExecOutcome
  frameSize : Nat
  pullsMade : Nat
  deriving DecidableEq, Repr

/-- `Interpreter::ExecutePlan`: build a `Frame` of length `max_position`;
if the plan has output symbols, stream a header derived from the stripped
query's named expressions and one result row per pull; otherwise, for the ten
accepted mutation roots stream an empty header and drain the cursor, and for
any other root throw `QueryRuntimeException` before streaming anything. -/
def ExecutePlan (plan : PlanModel) (tbl : SymbolTable)
    (stripped : StrippedQuery) : ExecResult :=
  let frameSize := tbl.maxPosition
  if plan.outputSymbols.isEmpty then
    if drainableRoot plan.kind then
      match plan.pullError with
      | some e => ⟨[.header []], .error e, frameSize, plan.cursorPulls.length⟩
      | none => ⟨[.header []], .ok (plan.kind == .createIndex), frameSize,
                 plan.cursorPulls.length⟩
    else ⟨[], .error .queryRuntime, frameSize, 0⟩
  else
    let header := plan.outputSymbols.map fun sym =>
      findOr stripped.namedExpressions sym.tokenPosition sym.name
    let results := plan.cursorPulls.map fun f =>
      StreamEvent.result (plan.outputSymbols.map fun s => frameGet f s.position)
    match plan.pullError with
    | some e => ⟨.header header :: results, .error e, frameSize,
                 plan.cursorPulls.length⟩
    | none => ⟨.header header :: results, .ok (plan.kind == .createIndex),
               frameSize, plan.cursorPulls.length⟩

/-- `Interpreter::CachedPlan`: plan root, cost estimate, frozen symbol table,
and the age in whole seconds that `cache_timer_.Elapsed()` reports at this
lookup (the AST arena only manages lifetimes and carries no semantics). -/
structure CachedPlan where
  plan : PlanModel
  cost : Int
  symbolTable : SymbolTable
  age : Nat
  deriving DecidableEq, Repr

/-- The recognized configuration flags (`FLAGS_query_plan_cache`,
`FLAGS_query_plan_cache_ttl`). -/
structure Config where
  queryPlanCache : Bool
  queryPlanCacheTtl : Nat
  deriving DecidableEq, Repr

/-- `CachedPlan::IsExpired`: elapsed seconds strictly greater than the TTL. -/
def CachedPlan.IsExpired (p : CachedPlan) (cfg : Config) : Bool :=
  p.age > cfg.queryPlanCacheTtl

/-- The plan cache (`ConcurrentMap<HashType, shared_ptr<CachedPlan>>`),
viewed by a single invocation as an association list. -/
abbrev PlanCache := List (Nat × CachedPlan)

/-- `accessor.find`: first entry with the given hash. -/
def cacheFind (cache : PlanCache) (h : Nat) : Option CachedPlan :=
  (cache.find? (fun e => e.1 == h)).map (fun e => e.2)

/-- `accessor.remove`: drop the entry with the given hash. -/
def cacheRemove (cache : PlanCache) (h : Nat) : PlanCache :=
  cache.filter (fun e => e.1 != h)

/-- The cache-lookup lambda of `Interpreter::Interpret`: find the entry for
the stripped hash; if it is expired, remove it and report a miss; otherwise
report the hit. Returns the lookup result and the updated cache. -/
def cacheLookup (cfg : Config) (cache : PlanCache) (h : Nat) :
    Option CachedPlan × PlanCache :=
  match cacheFind cache h with
  | some p =>
      if p.IsExpired cfg then (none, cacheRemove cache h) else (some p, cache)
  | none => (none, cache)

/-- Result of the lookup-or-compile phase of `Interpret`: the plan that will
be executed, the cache after the phase, and whether
`QueryToAst`/`MakeLogicalPlan` ran. -/
structure PlanPhaseResult where
  plan : CachedPlan
  planCache : PlanCache
  compiled : Bool
  deriving Repr

/-- The lookup-or-compile phase of `Interpreter::Interpret`: consult the
cache (removing an expired entry); on a miss compile
(`QueryToAst` + `SymbolGenerator` + `MakeLogicalPlan`, abstracted as the
`compile` oracle) and, when `FLAGS_query_plan_cache` is set, insert-if-absent,
adopting a concurrent winner's entry if one appeared. -/
def planPhase (cfg : Config) (compile : StrippedQuery → CachedPlan)
    (cache : PlanCache) (stripped : StrippedQuery) : PlanPhaseResult :=
  let looked := cacheLookup cfg cache stripped.hash
  match looked.1 with
  | some p => ⟨p, looked.2, false⟩
  | none =>
    let fresh := compile stripped
    if cfg.queryPlanCache then
      match cacheFind looked.2 stripped.hash with
      | some existing => ⟨existing, looked.2, true⟩
      | none => ⟨fresh, looked.2 ++ [(stripped.hash, fresh)], true⟩
    else ⟨fresh, looked.2, true⟩

/-- The parameter-check loop of `Interpreter::Interpret`: walk
`stripped.parameters()`; the first recorded `$`-parameter whose name is not in
the supplied map triggers `UnprovidedParameterError`. -/
def paramCheck : List (Int × String) → List (String × TypedValue) →
    Option String
  | [], _ => none
  | p :: rest, params =>
    match params.find? (fun q => q.1 == p.2) with
    | some _ => paramCheck rest params
    | none => some p.2

/-- The summary map built at the end of `Interpreter::Interpret` (given in
insertion order; all five keys are distinct, so the `std::map` holds exactly
these bindings). -/
def summaryFor (frontendTime planningTime executionTime cost : Int) :
    List (String × TypedValue) :=
  [("parsing_time", .int frontendTime),
   ("planning_time", .int planningTime),
   ("plan_execution_time", .int executionTime),
   ("cost_estimate", .int cost),
   ("type", .str "rw")]

/-- Observable result of one `Interpreter::Interpret` invocation: the normal
or exceptional outcome, the stream events emitted, the plan cache afterwards,
and whether a compilation was performed. -/
structure InterpretResult where
  outcome : Except QueryError Unit
  events : List StreamEvent
  planCache : PlanCache
  compiled : Bool
  deriving Repr

/-- `Interpreter::Interpret`: check the supplied parameters against the
stripped query (throwing `UnprovidedParameterError` before anything else
happens); look up or compile the plan; execute it; if execution succeeded and
an index was created, remove every plan-cache entry; finally stream the
summary. The three timer readings are opaque inputs. -/
def Interpret (cfg : Config) (compile : StrippedQuery → CachedPlan)
    (cache : PlanCache) (stripped : StrippedQuery)
    (params : List (String × TypedValue))
    (frontendTime planningTime executionTime : Int) : InterpretResult :=
  match paramCheck stripped.parameters params with
  | some name => ⟨.error (.unprovidedParameter name), [], cache, false⟩
  | none =>
    let pp := planPhase cfg compile cache stripped
    let er := ExecutePlan pp.plan.plan pp.plan.symbolTable stripped
    match er.outcome with
    | .error e => ⟨.error e, er.events, pp.planCache, pp.compiled⟩
    | .ok isIndexCreated =>
      let cacheAfter : PlanCache := if isIndexCreated then [] else pp.planCache
      ⟨.ok (), er.events ++
         [.summary (summaryFor frontendTime planningTime executionTime
            pp.plan.cost)],
       cacheAfter, pp.compiled⟩

/-!
## Plan pretty printing (query/plan/pretty_print.cpp)

`PlanPrinter` walks the operator tree; `WithPrintLn` emits one line at the
current depth. Printed lines are modelled as a depth paired with the line's
character list (so that the `"* "` and `"|\ "` prefixes are plainly visible
to the proofs).
-/

/-- Direction of an expansion, as printed by `PlanPrinter::PrintExpand`. -/
inductive EdgeDir
  | inD
  | outD
  | both
  deriving DecidableEq, Repr

/-- The shape of a logical-plan tree as the printer traverses it: unary
operators own their input, `Merge` owns two branches plus the input,
`Optional` one branch plus the input, `Cartesian` its two sides, and
`Once`/`CreateIndex` are leaves. -/
inductive PlanOp
  | once
  | createIndex
  | createNode (input : PlanOp)
  | createExpand (input : PlanOp)
  | delete (input : PlanOp)
  | filter (input : PlanOp)
  | accumulate (input : PlanOp)
  | scanAll (sym : String) (input : PlanOp)
  | expand (inputSym edgeSym nodeSym : String) (dir : EdgeDir) (input : PlanOp)
  | produce (names : List String) (input : PlanOp)
  | merge (mergeMatch mergeCreate input : PlanOp)
  | optional (branch input : PlanOp)
  | cartesian (leftSyms rightSyms : List String) (left right : PlanOp)
  deriving DecidableEq, Repr

/-- One printed line: the `depth_` at which `WithPrintLn` ran, and the text
produced by the visitor's lambda. -/
abbrev PrintedLine := Nat × List Char

/-- Text of an operator line: `out << "* " << ...`. -/
def starOf (text : List Char) : List Char := '*' :: ' ' :: text

/-- Text of a branch-introduction line: `out << "|\\ " << branch_name`. -/
def branchMarkOf (label : List Char) : List Char := '|' :: '\\' :: ' ' :: label

/-- `utils::PrintIterable` with a `", "` delimiter. -/
def joinComma : List (List Char) → List Char
  | [] => []
  | [x] => x
  | x :: y :: rest => x ++ ',' :: ' ' :: joinComma (y :: rest)

/-- `PlanPrinter::PrintExpand`: `(in)` then the edge with direction arrows,
then `(node)`. -/
def printExpandText (inputSym edgeSym nodeSym : String) (dir : EdgeDir) :
    List Char :=
  ' ' :: '(' :: inputSym.data ++ ')' ::
    (if dir = EdgeDir.inD then ['<', '-'] else ['-']) ++
    '[' :: edgeSym.data ++ ']' ::
    (if dir = EdgeDir.outD then ['-', '>'] else ['-']) ++
    '(' :: nodeSym.data ++ [')']

/-- `PlanPrinter` line by line: each `PreVisit`/`Visit` prints one `"* "`
line at the current depth and then visits the children; `Once` is skipped
("Ignore checking Once, it is implicitly at the end"); `Merge`, `Optional`
and `Cartesian` print their non-input children through `Branch`, which emits
a `"|\ "` line at the current depth and visits the child at depth + 1. -/
def printPlan : PlanOp → Nat → List PrintedLine
  | .once, _ => []
  | .createIndex, d => [(d, starOf "CreateIndex".data)]
  | .createNode input, d => (d, starOf "CreateNode".data) :: printPlan input d
  | .createExpand input, d =>
      (d, starOf "CreateExpand".data) :: printPlan input d
  | .delete input, d => (d, starOf "Delete".data) :: printPlan input d
  | .filter input, d => (d, starOf "Filter".data) :: printPlan input d
  | .accumulate input, d => (d, starOf "Accumulate".data) :: printPlan input d
  | .scanAll sym input, d =>
      (d, starOf ("ScanAll".data ++ ' ' :: '(' :: sym.data ++ [')'])) ::
        printPlan input d
  | .expand inputSym edgeSym nodeSym dir input, d =>
      (d, starOf ("Expand".data ++
        printExpandText inputSym edgeSym nodeSym dir)) :: printPlan input d
  | .produce names input, d =>
      (d, starOf ("Produce".data ++ ' ' :: '\x7b' ::
        joinComma (names.map String.data) ++ ['\x7d'])) :: printPlan input d
  | .merge mergeMatch mergeCreate input, d =>
      (d, starOf "Merge".data) ::
        ((d, branchMarkOf "On Match".data) ::
          (printPlan mergeMatch (d + 1) ++
            ((d, branchMarkOf "On Create".data) ::
              (printPlan mergeCreate (d + 1) ++ printPlan input d))))
  | .optional branch input, d =>
      (d, starOf "Optional".data) ::
        ((d, branchMarkOf "".data) ::
          (printPlan branch (d + 1) ++ printPlan input d))
  | .cartesian leftSyms rightSyms left right, d =>
      (d, starOf ("Cartesian".data ++ ' ' :: '\x7b' ::
        joinComma (leftSyms.map String.data) ++ ' ' :: ':' :: ' ' ::
        joinComma (rightSyms.map String.data) ++ ['\x7d'])) ::
        ((d, branchMarkOf "".data) ::
          (printPlan right (d + 1) ++ printPlan left d))

/-- Number of operator nodes in a plan tree. -/
def opCount : PlanOp → Nat
  | .once => 1
  | .createIndex => 1
  | .createNode input => 1 + opCount input
  | .createExpand input => 1 + opCount input
  | .delete input => 1 + opCount input
  | .filter input => 1 + opCount input
  | .accumulate input => 1 + opCount input
  | .scanAll _ input => 1 + opCount input
  | .expand _ _ _ _ input => 1 + opCount input
  | .produce _ input => 1 + opCount input
  | .merge m c input => 1 + opCount m + opCount c + opCount input
  | .optional b input => 1 + opCount b + opCount input
  | .cartesian _ _ l r => 1 + opCount l + opCount r

/-- Number of operator nodes other than the `Once` leaves. -/
def printedOpCount : PlanOp → Nat
  | .once => 0
  | .createIndex => 1
  | .createNode input => 1 + printedOpCount input
  | .createExpand input => 1 + printedOpCount input
  | .delete input => 1 + printedOpCount input
  | .filter input => 1 + printedOpCount input
  | .accumulate input => 1 + printedOpCount input
  | .scanAll _ input => 1 + printedOpCount input
  | .expand _ _ _ _ input => 1 + printedOpCount input
  | .produce _ input => 1 + printedOpCount input
  | .merge m c input =>
      1 + printedOpCount m + printedOpCount c + printedOpCount input
  | .optional b input => 1 + printedOpCount b + printedOpCount input
  | .cartesian _ _ l r => 1 + printedOpCount l + printedOpCount r

/-- A line that prints an operator: it starts with `"* "`. -/
def starLine (l : List Char) : Bool :=
  match l with
  | '*' :: ' ' :: _ => true
  | _ => false

/-- A line that introduces a branch: it starts with `"|\ "`. -/
def branchLine (l : List Char) : Bool :=
  match l with
  | '|' :: '\\' :: ' ' :: _ => true
  | _ => false

/-!
## Runtime operators for the `EdgeUniquenessInOptional` scenario

The cursor implementations of `ScanAll`, `Expand`, `ExpandUniquenessFilter`
and `Optional` are outside the provided sources; they are modelled from the
specification (§4.5) with list semantics: an operator maps the list of rows
its input produces to the list of rows it yields. The in-src end-to-end test
`QueryExecution.EdgeUniquenessInOptional` fixes the expected behavior on a
concrete graph.
-/

/-- A runtime value in this scenario: null, a vertex handle or an edge
handle (identified by storage ids). -/
inductive QVal
  | null
  | vert (v : Nat)
  | edge (e : Nat)
  deriving DecidableEq, Repr

/-- A row binds symbol names to values (the frame restricted to the symbols
this scenario touches). -/
abbrev QRow := List (String × QVal)

/-- Read a symbol from a row; unbound symbols read as null. -/
def qget (r : QRow) (s : String) : QVal :=
  match r.find? (fun p => p.1 == s) with
  | some p => p.2
  | none => QVal.null

/-- Bind a symbol in a row. -/
def qset (r : QRow) (s : String) (v : QVal) : QRow :=
  (s, v) :: r.filter (fun p => p.1 != s)

/-- An edge of the property graph: id, source vertex, destination vertex and
edge type. -/
structure GEdge where
  id : Nat
  src : Nat
  dst : Nat
  ty : Nat
  deriving DecidableEq, Repr

/-- The transactional graph as the scan/expansion operators observe it. -/
structure TestGraph where
  vertices : List Nat
  edges : List GEdge
  deriving DecidableEq, Repr

/-- Outgoing edges of a vertex. -/
def outEdges (g : TestGraph) (v : Nat) : List GEdge :=
  g.edges.filter (fun e => e.src == v)

/-- Modelled from the spec: `ScanAll` — for each input row, iterate all
vertices and bind the output symbol. -/
def opScanAll (g : TestGraph) (sym : String) (input : List QRow) : List QRow :=
  input.flatMap fun r => g.vertices.map fun v => qset r sym (QVal.vert v)

/-- Modelled from the spec: `Expand` over outgoing edges — for the current
input vertex bind the edge and far-end node per matching edge; when the input
symbol is null (from `Optional`), yield once with both outputs null without
touching the graph. An input bound to an edge handle cannot occur in a
well-typed plan and yields nothing. -/
def opExpand (g : TestGraph) (inputSym edgeSym nodeSym : String)
    (input : List QRow) : List QRow :=
  input.flatMap fun r =>
    match qget r inputSym with
    | QVal.null => [qset (qset r edgeSym QVal.null) nodeSym QVal.null]
    | QVal.vert v =>
        (outEdges g v).map fun e =>
          qset (qset r edgeSym (QVal.edge e.id)) nodeSym (QVal.vert e.dst)
    | QVal.edge _ => []

/-- Modelled from the spec: the predicate of
`ExpandUniquenessFilter<EdgeAccessor>` — drop the row if the current symbol
equals any of the previous symbols; skip the check if the current symbol is
null. -/
def uniqOk (previousSyms : List String) (currentSym : String) (r : QRow) :
    Bool :=
  match qget r currentSym with
  | QVal.null => true
  | v => previousSyms.all fun p => qget r p != v

/-- Modelled from the spec: `ExpandUniquenessFilter` keeps exactly the rows
its predicate accepts. -/
def opExpandUniquenessFilter (previousSyms : List String) (currentSym : String)
    (input : List QRow) : List QRow :=
  input.filter (uniqOk previousSyms currentSym)

/-- Modelled from the spec: `Optional` — run the branch on each input row;
forward its rows if it produced any, otherwise emit exactly one row with all
symbols the branch would have written set to null. -/
def opOptional (branch : List QRow → List QRow) (optionalSyms : List String)
    (input : List QRow) : List QRow :=
  input.flatMap fun r =>
    match branch [r] with
    | [] => [optionalSyms.foldl (fun acc s => qset acc s QVal.null) r]
    | out => out

/-- Modelled from the spec: `Produce` — project the named expressions (here
plain symbol references) of each row. -/
def opProduce (syms : List String) (input : List QRow) : List (List QVal) :=
  input.map fun r => syms.map (qget r)

/-- The graph created by `CREATE (), ()-[:Type]->()`: three vertices and one
edge from the second to the third. -/
def edgeUniqGraph : TestGraph := ⟨[0, 1, 2], [⟨0, 1, 2, 0⟩]⟩

/-- The optional part of
`MATCH (n) OPTIONAL MATCH (n)-[r1]->(), (n)-[r2]->() RETURN n, r1, r2` under
left-to-right planning: expand `r1`, expand `r2`, then the edge-uniqueness
filter over `r1` against `r2`. -/
def edgeUniqOptionalBranch (g : TestGraph) (rows : List QRow) : List QRow :=
  opExpandUniquenessFilter ["r1"] "r2"
    (opExpand g "n" "r2" "m2"
      (opExpand g "n" "r1" "m1" rows))

/-- The full plan of the scenario query: scan `n`, the `Optional` wrapper
around the optional branch (its written symbols are the two edges and the two
anonymous end nodes), then `Produce n, r1, r2`. -/
def edgeUniqQueryResults : List (List QVal) :=
  opProduce ["n", "r1", "r2"]
    (opOptional (edgeUniqOptionalBranch edgeUniqGraph)
      ["r1", "m1", "r2", "m2"]
      (opScanAll edgeUniqGraph "n" [[]]))

/-!
## RPC client receive loop (communication/rpc/client.cpp)

The receive part of `rpc::Client::Call` is modelled over the sequence of byte
chunks successive `socket_->Read` calls deliver. `MessageSize` is modelled as
a 32-bit unsigned integer (its typedef lives outside the provided sources);
bytes are little-endian naturals below 256, as on the target platform.
-/

/-- Read a 32-bit little-endian value from the front of the buffer
(`*reinterpret_cast<uint32_t *>(buffer_.data())`). -/
def readU32 (l : List Nat) : Nat :=
  match l with
  | b0 :: b1 :: b2 :: b3 :: _ => b0 + 256 * (b1 + 256 * (b2 + 256 * b3))
  | _ => 0

/-- Serialize a 32-bit value little-endian, as the server writes it. -/
def writeU32 (n : Nat) : List Nat :=
  [n % 256, n / 256 % 256, n / 65536 % 256, n / 16777216 % 256]

/-- A framed response as it appears on the wire: 32-bit message id, 32-bit
payload size, payload bytes. -/
def frameMsg (id : Nat) (payload : List Nat) : List Nat :=
  writeU32 id ++ writeU32 payload.length ++ payload

/-- The receive loop of `rpc::Client::Call`: read a chunk (running out of
chunks models `Read` returning `<= 0`, where the call gives up); once the
buffer holds the 8-byte header, parse the response id and data size; once it
holds the whole message, extract the payload and shift the message's bytes
out of the buffer; a response whose id differs from the request id is stale
and is skipped, otherwise the response is returned with its id. -/
def clientCallLoop (requestId : Nat) :
    List Nat → List (List Nat) → Option (Nat × List Nat)
  | _, [] => none
  | buffer, chunk :: rest =>
    let buffer1 := buffer ++ chunk
    if buffer1.length < 8 then clientCallLoop requestId buffer1 rest
    else
      let responseId := readU32 buffer1
      let responseDataSize := readU32 (buffer1.drop 4)
      let responseSize := 8 + responseDataSize
      if buffer1.length < responseSize then clientCallLoop requestId buffer1 rest
      else
        let payload := (buffer1.drop 8).take responseDataSize
        let buffer2 := buffer1.drop responseSize
        if responseId ≠ requestId then clientCallLoop requestId buffer2 rest
        else some (responseId, payload)

/-!
## Edge cloning (storage/edge.hpp)
-/

/-- The `mvcc::Record<Edge>` base-class state. Its internals are outside the
provided sources, so it is kept opaque; all that matters here is its
default-constructed value. -/
structure MvccRecordState where
  state : Nat
  deriving DecidableEq, Repr

/-- The state `mvcc::Record<Edge>()` default-constructs. -/
def mvccRecordDefault : MvccRecordState := ⟨0⟩

/-- An `Edge` record: the MVCC base-class state plus `from_`, `to_`,
`edge_type_` and `properties_` (addresses, types and property ids are storage
handles, modelled as naturals). -/
structure EdgeRec where
  record : MvccRecordState
  from_ : Nat
  to_ : Nat
  edge_type_ : Nat
  properties_ : List (Nat × TypedValue)
  deriving DecidableEq, Repr

/-- The private copy constructor `Edge(const Edge &other)`:
default-constructs the `mvcc::Record<Edge>` base and copies `from_`, `to_`,
`edge_type_` and `properties_`. -/
def EdgeRec.copyCtor (other : EdgeRec) : EdgeRec :=
  { record := mvccRecordDefault
    from_ := other.from_
    to_ := other.to_
    edge_type_ := other.edge_type_
    properties_ := other.properties_ }

/-- `Edge::CloneData`: `new Edge(*this)` — a fresh record built by the copy
constructor. -/
def EdgeRec.CloneData (e : EdgeRec) : EdgeRec := e.copyCtor

/-!
## Supporting lemmas
-/

/-- When `ExecutePlan` returns normally, `ctx.is_index_created_` is set
exactly when the executed plan is a `CreateIndex`. -/
theorem executePlan_ok_flag (plan : PlanModel) (tbl : SymbolTable)
    (stripped : StrippedQuery) (b : Bool)
    (h : (ExecutePlan plan tbl stripped).outcome = ExecOutcome.ok b) :
    b = (plan.kind == OpKind.createIndex) := by
  simp only [ExecutePlan] at h
  split at h
  · split at h
    · split at h <;> simp_all
    · simp_all
  · split at h <;> simp_all

/-- A root operator outside the accepted ten, with no output symbols, makes
`ExecutePlan` throw `QueryRuntimeException` without streaming or pulling. -/
theorem executePlan_unknown_root (plan : PlanModel) (tbl : SymbolTable)
    (stripped : StrippedQuery) (hempty : plan.outputSymbols = [])
    (hk : drainableRoot plan.kind = false) :
    ExecutePlan plan tbl stripped =
      ⟨[], ExecOutcome.error QueryError.queryRuntime, tbl.maxPosition, 0⟩ := by
  simp only [ExecutePlan, hempty, List.isEmpty_nil, if_true, hk,
    Bool.false_eq_true, if_false]

/-- Removing a hash removes it: a subsequent find misses. -/
theorem cacheFind_remove (cache : PlanCache) (h : Nat) :
    cacheFind (cacheRemove cache h) h = none := by
  induction cache with
  | nil => rfl
  | cons e rest ih =>
    by_cases he : e.1 = h
    · simp [cacheRemove, cacheFind, he, ih]
    · simp [cacheRemove, cacheFind, he, ih]

/-- Inserting at an absent hash makes a subsequent find hit the new entry. -/
theorem cacheFind_append (cache : PlanCache) (h : Nat) (p : CachedPlan)
    (hnone : cacheFind cache h = none) :
    cacheFind (cache ++ [(h, p)]) h = some p := by
  induction cache with
  | nil => simp [cacheFind]
  | cons e rest ih =>
    have hbe : (e.1 == h) = false := by
      by_cases he : e.1 = h
      · exfalso; simp [cacheFind, he] at hnone
      · simp [he]
    have hrest : cacheFind rest h = none := by
      simpa [cacheFind, List.find?_cons, hbe] using hnone
    simpa [cacheFind, List.find?_cons, hbe] using ih hrest

/-- If some recorded parameter is missing from the supplied map, the
parameter-check loop reports a missing parameter. -/
theorem paramCheck_finds_missing (ps : List (Int × String))
    (params : List (String × TypedValue)) (pos : Int) (name : String)
    (hmem : (pos, name) ∈ ps)
    (hmissing : params.find? (fun q => q.1 == name) = none) :
    ∃ n, paramCheck ps params = some n := by
  induction ps with
  | nil => simp at hmem
  | cons p rest ih =>
    rcases List.mem_cons.mp hmem with h | h
    · have hp2 : p.2 = name := by rw [← h]
      refine ⟨p.2, ?_⟩
      simp only [paramCheck, hp2, hmissing]
    · cases hfp : params.find? (fun q => q.1 == p.2) with
      | some q =>
        obtain ⟨n, hn⟩ := ih h
        exact ⟨n, by simp only [paramCheck, hfp]; exact hn⟩
      | none => exact ⟨p.2, by simp only [paramCheck, hfp]⟩

/-- Positions handed out by the symbol generator stay below `max_position`. -/
theorem built_positions_lt (t : SymbolTable) (hb : t.Built) :
    ∀ s ∈ t.symbols, s.position < t.maxPosition := by
  induction hb with
  | empty => intro s hs; simp [SymbolTable.empty] at hs
  | create t name tokenPos hb ih =>
    intro s hs
    simp only [SymbolTable.CreateSymbol, List.mem_append,
      List.mem_singleton] at hs
    rcases hs with hs | hs
    · exact Nat.lt_succ_of_lt (ih s hs)
    · subst hs; exact Nat.lt_succ_self _

/-!
## Claim theorems
-/

/-- C10: `Edge::CloneData` returns an edge whose `from_`, `to_`,
`edge_type_` and `properties_` equal those of the source edge, while the
`mvcc::Record` base-class state is default-constructed rather than copied
from the source. -/
theorem edge_cloneData_spec (e : EdgeRec) :
    (e.CloneData).from_ = e.from_ ∧ (e.CloneData).to_ = e.to_ ∧
    (e.CloneData).edge_type_ = e.edge_type_ ∧
    (e.CloneData).properties_ = e.properties_ ∧
    (e.CloneData).record = mvccRecordDefault :=
  ⟨rfl, rfl, rfl, rfl, rfl⟩

/-- C2: the edge-uniqueness filter never drops a row whose current edge
symbol is null (as `OPTIONAL MATCH` produces), and on the graph created by
`CREATE (), ()-[:Type]->()` the query
`MATCH (n) OPTIONAL MATCH (n)-[r1]->(), (n)-[r2]->() RETURN n, r1, r2`
returns exactly 3 rows. -/
theorem expand_uniqueness_null_ok :
    (∀ (previousSyms : List String) (currentSym : String) (r : QRow),
       qget r currentSym = QVal.null →
       uniqOk previousSyms currentSym r = true) ∧
    edgeUniqQueryResults.length = 3 := by
  constructor
  · intro previousSyms currentSym r h
    unfold uniqOk
    rw [h]
  · decide

/-- C2 witness: the filter keeps a concrete row with a null current edge, and
the scenario row count is as claimed. -/
theorem expand_uniqueness_null_ok_witness :
    uniqOk ["r1"] "r2" [("r2", QVal.null), ("r1", QVal.edge 0)] = true ∧
    edgeUniqQueryResults.length = 3 :=
  ⟨expand_uniqueness_null_ok.1 ["r1"] "r2"
     [("r2", QVal.null), ("r1", QVal.edge 0)] (by decide),
   expand_uniqueness_null_ok.2⟩

/-- C7: `ExecutePlan` constructs the frame with length equal to the symbol
table's `max_position`, so every symbol slot of a table built by the symbol
generator is below the frame size. -/
theorem executePlan_frame_covers_symbols (plan : PlanModel)
    (tbl : SymbolTable) (stripped : StrippedQuery) :
    (ExecutePlan plan tbl stripped).frameSize = tbl.maxPosition ∧
    (tbl.Built → ∀ s ∈ tbl.symbols,
       s.position < (ExecutePlan plan tbl stripped).frameSize) := by
  have hf : (ExecutePlan plan tbl stripped).frameSize = tbl.maxPosition := by
    simp only [ExecutePlan]
    split
    · split
      · split <;> rfl
      · rfl
    · split <;> rfl
  exact ⟨hf, fun hb s hs => hf ▸ built_positions_lt tbl hb s hs⟩

/-- A two-symbol table as the symbol generator would build it. -/
def sampleTable : SymbolTable :=
  ((SymbolTable.empty.CreateSymbol "n" 2).2.CreateSymbol "r" (-1)).2

/-- A sample plan and stripped query for concrete instantiations. -/
def samplePlan : PlanModel := ⟨OpKind.produce, [⟨"n", 0, 2⟩], [], none⟩

def sampleStripped : StrippedQuery := ⟨7, [], [], []⟩

/-- C7 witness: the frame for a concretely built table covers both its
symbol slots. -/
theorem executePlan_frame_covers_symbols_witness :
    (ExecutePlan samplePlan sampleTable sampleStripped).frameSize =
      sampleTable.maxPosition ∧
    ∀ s ∈ sampleTable.symbols,
      s.position < (ExecutePlan samplePlan sampleTable sampleStripped).frameSize :=
  ⟨(executePlan_frame_covers_symbols samplePlan sampleTable sampleStripped).1,
   (executePlan_frame_covers_symbols samplePlan sampleTable sampleStripped).2
     (SymbolTable.Built.create _ "r" (-1)
       (SymbolTable.Built.create _ "n" 2 SymbolTable.Built.empty))⟩

theorem starLine_starOf (t : List Char) : starLine (starOf t) = true := rfl

theorem starLine_branchMarkOf (t : List Char) :
    starLine (branchMarkOf t) = false := rfl

theorem branchLine_branchMarkOf (t : List Char) :
    branchLine (branchMarkOf t) = true := rfl

/-- Every operator except `Once` contributes exactly one `"* "` line. -/
theorem printPlan_star_count (op : PlanOp) :
    ∀ d, (printPlan op d).countP (fun l => starLine l.2) = printedOpCount op := by
  induction op with
  | once => intro d; rfl
  | createIndex => intro d; rfl
  | createNode input ih =>
    intro d
    simp [printPlan, printedOpCount, List.countP_cons, starLine_starOf, ih d]
    try omega
  | createExpand input ih =>
    intro d
    simp [printPlan, printedOpCount, List.countP_cons, starLine_starOf, ih d]
    try omega
  | delete input ih =>
    intro d
    simp [printPlan, printedOpCount, List.countP_cons, starLine_starOf, ih d]
    try omega
  | filter input ih =>
    intro d
    simp [printPlan, printedOpCount, List.countP_cons, starLine_starOf, ih d]
    try omega
  | accumulate input ih =>
    intro d
    simp [printPlan, printedOpCount, List.countP_cons, starLine_starOf, ih d]
    try omega
  | scanAll sym input ih =>
    intro d
    simp [printPlan, printedOpCount, List.countP_cons, starLine_starOf, ih d]
    try omega
  | expand a b c dir input ih =>
    intro d
    simp [printPlan, printedOpCount, List.countP_cons, starLine_starOf, ih d]
    try omega
  | produce names input ih =>
    intro d
    simp [printPlan, printedOpCount, List.countP_cons, starLine_starOf, ih d]
    try omega
  | merge m c input ihm ihc ihi =>
    intro d
    simp [printPlan, printedOpCount, List.countP_cons, List.countP_append,
      starLine_starOf, starLine_branchMarkOf, ihm (d + 1), ihc (d + 1), ihi d]
    try omega
  | optional b input ihb ihi =>
    intro d
    simp [printPlan, printedOpCount, List.countP_cons, List.countP_append,
      starLine_starOf, starLine_branchMarkOf, ihb (d + 1), ihi d]
    try omega
  | cartesian ls rs l r ihl ihr =>
    intro d
    simp [printPlan, printedOpCount, List.countP_cons, List.countP_append,
      starLine_starOf, starLine_branchMarkOf, ihl d, ihr (d + 1)]
    try omega

/-- Every printed line is either an operator line (`"* "`) or a branch
introduction (`"|\ "`). -/
theorem printPlan_line_shape (op : PlanOp) :
    ∀ d, ∀ l ∈ printPlan op d,
      starLine l.2 = true ∨ branchLine l.2 = true := by
  induction op with
  | once => intro d l hl; simp [printPlan] at hl
  | createIndex =>
    intro d l hl
    simp [printPlan] at hl
    subst hl
    left; rfl
  | createNode input ih =>
    intro d l hl
    rcases List.mem_cons.mp hl with h | h
    · subst h; left; rfl
    · exact ih d l h
  | createExpand input ih =>
    intro d l hl
    rcases List.mem_cons.mp hl with h | h
    · subst h; left; rfl
    · exact ih d l h
  | delete input ih =>
    intro d l hl
    rcases List.mem_cons.mp hl with h | h
    · subst h; left; rfl
    · exact ih d l h
  | filter input ih =>
    intro d l hl
    rcases List.mem_cons.mp hl with h | h
    · subst h; left; rfl
    · exact ih d l h
  | accumulate input ih =>
    intro d l hl
    rcases List.mem_cons.mp hl with h | h
    · subst h; left; rfl
    · exact ih d l h
  | scanAll sym input ih =>
    intro d l hl
    rcases List.mem_cons.mp hl with h | h
    · subst h; left; rfl
    · exact ih d l h
  | expand a b c dir input ih =>
    intro d l hl
    rcases List.mem_cons.mp hl with h | h
    · subst h; left; rfl
    · exact ih d l h
  | produce names input ih =>
    intro d l hl
    rcases List.mem_cons.mp hl with h | h
    · subst h; left; rfl
    · exact ih d l h
  | merge m c input ihm ihc ihi =>
    intro d l hl
    rcases List.mem_cons.mp hl with h | h
    · subst h; left; rfl
    rcases List.mem_cons.mp h with h | h
    · subst h; right; rfl
    rcases List.mem_append.mp h with h | h
    · exact ihm (d + 1) l h
    rcases List.mem_cons.mp h with h | h
    · subst h; right; rfl
    rcases List.mem_append.mp h with h | h
    · exact ihc (d + 1) l h
    · exact ihi d l h
  | optional b input ihb ihi =>
    intro d l hl
    rcases List.mem_cons.mp hl with h | h
    · subst h; left; rfl
    rcases List.mem_cons.mp h with h | h
    · subst h; right; rfl
    rcases List.mem_append.mp h with h | h
    · exact ihb (d + 1) l h
    · exact ihi d l h
  | cartesian ls rs l r ihl ihr =>
    intro d line hl
    rcases List.mem_cons.mp hl with h | h
    · subst h; left; rfl
    rcases List.mem_cons.mp h with h | h
    · subst h; right; rfl
    rcases List.mem_append.mp h with h | h
    · exact ihr (d + 1) line h
    · exact ihl d line h

/-- C8 counterexample: in the plan `ScanAll → Once` the printer emits a
single line — the `Once` leaf gets no line of its own (the source skips it:
"Ignore checking Once, it is implicitly at the end"), so not every operator
is printed. -/
theorem planPrinter_once_skipped :
    ¬((printPlan (PlanOp.scanAll "n" PlanOp.once) 0).countP
        (fun l => starLine l.2) =
      opCount (PlanOp.scanAll "n" PlanOp.once)) := by decide

/-- C8 (amended): every operator except the `Once` leaf is printed on its
own `"* "` line at its depth, every other printed line is a `"|\ "` branch
line, and `Merge`, `Optional` and `Cartesian` print their non-input children
after a `"|\ "` line (labelled `On Match` and `On Create` for `Merge`) at an
increased indentation depth. -/
theorem planPrinter_rendering :
    (∀ op d, (printPlan op d).countP (fun l => starLine l.2) =
       printedOpCount op) ∧
    (∀ op d, ∀ l ∈ printPlan op d,
       starLine l.2 = true ∨ branchLine l.2 = true) ∧
    (∀ m c i d, printPlan (PlanOp.merge m c i) d =
       (d, starOf "Merge".data) ::
         ((d, branchMarkOf "On Match".data) ::
           (printPlan m (d + 1) ++
             ((d, branchMarkOf "On Create".data) ::
               (printPlan c (d + 1) ++ printPlan i d))))) ∧
    (∀ b i d, printPlan (PlanOp.optional b i) d =
       (d, starOf "Optional".data) ::
         ((d, branchMarkOf "".data) ::
           (printPlan b (d + 1) ++ printPlan i d))) ∧
    (∀ ls rs left right d, printPlan (PlanOp.cartesian ls rs left right) d =
       (d, starOf ("Cartesian".data ++ ' ' :: '\x7b' ::
         joinComma (ls.map String.data) ++ ' ' :: ':' :: ' ' ::
         joinComma (rs.map String.data) ++ ['\x7d'])) ::
         ((d, branchMarkOf "".data) ::
           (printPlan right (d + 1) ++ printPlan left d))) :=
  ⟨fun op d => printPlan_star_count op d,
   fun op d => printPlan_line_shape op d,
   fun _ _ _ _ => rfl, fun _ _ _ => rfl, fun _ _ _ _ _ => rfl⟩

/-- C8 witness: the rendering facts applied to a concrete `Merge` plan. -/
theorem planPrinter_rendering_witness :
    ((printPlan (PlanOp.merge (PlanOp.scanAll "a" PlanOp.once)
        (PlanOp.createNode PlanOp.once) PlanOp.once) 0).countP
      (fun l => starLine l.2) =
      printedOpCount (PlanOp.merge (PlanOp.scanAll "a" PlanOp.once)
        (PlanOp.createNode PlanOp.once) PlanOp.once)) ∧
    (starLine (starOf "Merge".data) = true ∨
     branchLine (starOf "Merge".data) = true) :=
  ⟨planPrinter_rendering.1 (PlanOp.merge (PlanOp.scanAll "a" PlanOp.once)
      (PlanOp.createNode PlanOp.once) PlanOp.once) 0,
   planPrinter_rendering.2.1 (PlanOp.merge (PlanOp.scanAll "a" PlanOp.once)
      (PlanOp.createNode PlanOp.once) PlanOp.once) 0
      (0, starOf "Merge".data) (by decide)⟩

theorem frameMsg_length (id : Nat) (payload : List Nat) :
    (frameMsg id payload).length = 8 + payload.length := by
  simp [frameMsg, writeU32]
  omega

theorem readU32_frame_id (id : Nat) (payload : List Nat) (hid : id < 4294967296) :
    readU32 (frameMsg id payload) = id := by
  simp only [frameMsg, writeU32, List.cons_append, List.nil_append, readU32]
  omega

theorem readU32_frame_size (id : Nat) (payload : List Nat)
    (hlen : payload.length < 4294967296) :
    readU32 ((frameMsg id payload).drop 4) = payload.length := by
  simp only [frameMsg, writeU32, List.cons_append, List.nil_append,
    List.drop_succ_cons, List.drop_zero, readU32]
  omega

/-- C9: whenever the receive loop of `rpc::Client::Call` returns a response,
the id read from the received message equals the id of the request just
sent; a framed response carrying a stale id is parsed, shifted out of the
buffer and skipped, the loop continuing with the subsequent reads. -/
theorem client_call_response_id (requestId : Nat) :
    (∀ buffer chunks i p,
       clientCallLoop requestId buffer chunks = some (i, p) →
       i = requestId) ∧
    (∀ staleId payload rest, staleId ≠ requestId →
       staleId < 4294967296 → payload.length < 4294967296 →
       clientCallLoop requestId [] (frameMsg staleId payload :: rest) =
         clientCallLoop requestId [] rest) := by
  constructor
  · intro buffer chunks
    induction chunks generalizing buffer with
    | nil => intro i p h; simp [clientCallLoop] at h
    | cons chunk rest ih =>
      intro i p h
      simp only [clientCallLoop] at h
      split at h
      · exact ih _ i p h
      · split at h
        · exact ih _ i p h
        · split at h
          · exact ih _ i p h
          · rename_i hid
            rw [Option.some_inj] at h
            have : readU32 (buffer ++ chunk) = i := congrArg Prod.fst h
            omega
  · intro staleId payload rest hne hid hlen
    have h8 : ¬((frameMsg staleId payload).length < 8) := by
      rw [frameMsg_length]; omega
    have hsz : ¬((frameMsg staleId payload).length <
        8 + readU32 ((frameMsg staleId payload).drop 4)) := by
      rw [frameMsg_length, readU32_frame_size staleId payload hlen]
      omega
    have hdrop : (frameMsg staleId payload).drop
        (8 + readU32 ((frameMsg staleId payload).drop 4)) = [] := by
      apply List.drop_eq_nil_of_le
      rw [frameMsg_length, readU32_frame_size staleId payload hlen]
    simp only [clientCallLoop, List.nil_append, h8, if_false, hsz,
      readU32_frame_id staleId payload hid, hdrop]
    rw [if_pos hne]

/-- C9 witness: a stale response with id 3 is discarded and the matching
response with id 5 is returned. -/
theorem client_call_response_id_witness :
    (5 : Nat) = 5 ∧
    clientCallLoop 5 [] [frameMsg 3 [9, 9], frameMsg 5 [7]] =
      clientCallLoop 5 [] [frameMsg 5 [7]] :=
  ⟨(client_call_response_id 5).1 [] [frameMsg 5 [7]] 5 [7] (by decide),
   (client_call_response_id 5).2 3 [9, 9] [frameMsg 5 [7]]
     (by decide) (by decide) (by decide)⟩

/-- C4: a user `$`-parameter recorded by the stripper but absent from the
supplied parameter map makes `Interpret` throw `UnprovidedParameterError`
before any plan is compiled or executed and before any header, result or
summary is streamed: nothing is emitted, no compilation happens, and the
plan cache is untouched. -/
theorem interpret_unprovided_parameter (cfg : Config)
    (compile : StrippedQuery → CachedPlan) (cache : PlanCache)
    (stripped : StrippedQuery) (params : List (String × TypedValue))
    (ft pt et : Int) (pos : Int) (name : String)
    (hmem : (pos, name) ∈ stripped.parameters)
    (hmissing : params.find? (fun q => q.1 == name) = none) :
    ∃ n, Interpret cfg compile cache stripped params ft pt et =
      ⟨Except.error (QueryError.unprovidedParameter n), [], cache, false⟩ := by
  obtain ⟨n, hn⟩ :=
    paramCheck_finds_missing stripped.parameters params pos name hmem hmissing
  exact ⟨n, by simp only [Interpret, hn]⟩

/-- A stripped query recording one user parameter named `p`. -/
def sampleStrippedParam : StrippedQuery := ⟨7, [], [(0, "p")], []⟩

/-- C4 witness: interpreting with an empty parameter map fails before doing
anything. -/
theorem interpret_unprovided_parameter_witness :
    ∃ n, Interpret ⟨true, 10⟩ (fun _ => ⟨samplePlan, 0, sampleTable, 0⟩) []
        sampleStrippedParam [] 0 0 0 =
      ⟨Except.error (QueryError.unprovidedParameter n), [], [], false⟩ :=
  interpret_unprovided_parameter ⟨true, 10⟩
    (fun _ => ⟨samplePlan, 0, sampleTable, 0⟩) [] sampleStrippedParam [] 0 0 0
    0 "p" (by decide) rfl

/-- C5: on a plan-cache lookup, an entry whose age exceeds the configured
TTL is removed and the lookup is a miss — the query is recompiled and, when
caching is enabled, the fresh plan is reinserted at the stripped hash; an
unexpired entry is reused, skipping compilation and leaving the cache
unchanged. -/
theorem plan_cache_ttl (cfg : Config) (compile : StrippedQuery → CachedPlan)
    (cache : PlanCache) (stripped : StrippedQuery) (p : CachedPlan)
    (hfind : cacheFind cache stripped.hash = some p) :
    (p.IsExpired cfg = true →
       cacheLookup cfg cache stripped.hash =
         (none, cacheRemove cache stripped.hash) ∧
       (planPhase cfg compile cache stripped).compiled = true ∧
       (planPhase cfg compile cache stripped).plan = compile stripped ∧
       cacheFind (planPhase cfg compile cache stripped).planCache
           stripped.hash =
         (if cfg.queryPlanCache then some (compile stripped) else none)) ∧
    (p.IsExpired cfg = false →
       planPhase cfg compile cache stripped = ⟨p, cache, false⟩) := by
  constructor
  · intro hexp
    have hlook : cacheLookup cfg cache stripped.hash =
        (none, cacheRemove cache stripped.hash) := by
      simp [cacheLookup, hfind, hexp]
    have hfindrem := cacheFind_remove cache stripped.hash
    refine ⟨hlook, ?_, ?_, ?_⟩ <;>
      · simp only [planPhase, hlook]
        cases hq : cfg.queryPlanCache <;>
          simp [hfindrem, cacheFind_append _ _ _ hfindrem, hq]
  · intro hexp
    simp [planPhase, cacheLookup, hfind, hexp]

/-- A cache entry 11 seconds old (expired for a 10-second TTL). -/
def expiredEntry : CachedPlan :=
  ⟨⟨OpKind.createNode, [], [], none⟩, 1, SymbolTable.empty, 11⟩

/-- A cache entry 5 seconds old (valid for a 10-second TTL). -/
def freshEntry : CachedPlan :=
  ⟨⟨OpKind.createNode, [], [], none⟩, 2, SymbolTable.empty, 5⟩

/-- The plan compilation produces for `sampleStripped`. -/
def sampleCompiled : CachedPlan := ⟨samplePlan, 3, sampleTable, 0⟩

/-- C5 witness: an 11-second-old entry is recompiled under a 10-second TTL;
a 5-second-old entry is reused as-is. -/
theorem plan_cache_ttl_witness :
    (planPhase ⟨true, 10⟩ (fun _ => sampleCompiled) [(7, expiredEntry)]
        sampleStripped).compiled = true ∧
    planPhase ⟨true, 10⟩ (fun _ => sampleCompiled) [(7, freshEntry)]
        sampleStripped = ⟨freshEntry, [(7, freshEntry)], false⟩ :=
  ⟨((plan_cache_ttl ⟨true, 10⟩ (fun _ => sampleCompiled) [(7, expiredEntry)]
        sampleStripped expiredEntry (by decide)).1 (by decide)).2.1,
   (plan_cache_ttl ⟨true, 10⟩ (fun _ => sampleCompiled) [(7, freshEntry)]
        sampleStripped freshEntry (by decide)).2 (by decide)⟩

/-- C3: for a plan whose root yields no output symbols, the interpreter
streams an empty header and drains the root cursor when the root is one of
`CreateNode`, `CreateExpand`, `SetProperty`, `SetProperties`, `SetLabels`,
`RemoveProperty`, `RemoveLabels`, `Delete`, `Merge` or `CreateIndex`; for
any other root operator it throws `QueryRuntimeError`, and the interpreter
streams no header, row or summary. -/
theorem executePlan_no_output_symbols (plan : PlanModel)
    (stripped : StrippedQuery) (hempty : plan.outputSymbols = []) :
    (∀ k, drainableRoot k = true ↔
       k ∈ [OpKind.createNode, OpKind.createExpand, OpKind.setProperty,
            OpKind.setProperties, OpKind.setLabels, OpKind.removeProperty,
            OpKind.removeLabels, OpKind.delete, OpKind.merge,
            OpKind.createIndex]) ∧
    (∀ tbl, drainableRoot plan.kind = true →
       (ExecutePlan plan tbl stripped).events = [StreamEvent.header []] ∧
       (ExecutePlan plan tbl stripped).pullsMade =
         plan.cursorPulls.length) ∧
    (∀ tbl, drainableRoot plan.kind = false →
       ExecutePlan plan tbl stripped =
         ⟨[], ExecOutcome.error QueryError.queryRuntime,
          tbl.maxPosition, 0⟩) ∧
    (∀ cfg compile cache params ft pt et,
       (planPhase cfg compile cache stripped).plan.plan = plan →
       drainableRoot plan.kind = false →
       paramCheck stripped.parameters params = none →
       (Interpret cfg compile cache stripped params ft pt et).outcome =
           Except.error QueryError.queryRuntime ∧
       (Interpret cfg compile cache stripped params ft pt et).events =
           []) := by
  refine ⟨?_, ?_, ?_, ?_⟩
  · intro k; cases k <;> decide
  · intro tbl hk
    cases hpe : plan.pullError with
    | none => constructor <;> simp [ExecutePlan, hempty, hk, hpe]
    | some e => constructor <;> simp [ExecutePlan, hempty, hk, hpe]
  · intro tbl hk
    exact executePlan_unknown_root plan tbl stripped hempty hk
  · intro cfg compile cache params ft pt et hplan hk hpc
    have hexec := executePlan_unknown_root plan
      (planPhase cfg compile cache stripped).plan.symbolTable stripped
      hempty hk
    constructor <;> simp [Interpret, hpc, hplan, hexec]

/-- A `Delete` root with no output symbols. -/
def deleteRootPlan : PlanModel := ⟨OpKind.delete, [], [], none⟩

/-- A `ScanAll` root with no output symbols (not an accepted mutation
root). -/
def scanRootPlan : PlanModel := ⟨OpKind.scanAll, [], [], none⟩

/-- C3 witness: a `Delete` root streams an empty header; a `ScanAll` root
with no output symbols raises `QueryRuntimeError` and nothing is streamed. -/
theorem executePlan_no_output_symbols_witness :
    (ExecutePlan deleteRootPlan sampleTable sampleStripped).events =
      [StreamEvent.header []] ∧
    ExecutePlan scanRootPlan sampleTable sampleStripped =
      ⟨[], ExecOutcome.error QueryError.queryRuntime,
       sampleTable.maxPosition, 0⟩ ∧
    (Interpret ⟨false, 0⟩ (fun _ => ⟨scanRootPlan, 0, sampleTable, 0⟩) []
        sampleStripped [] 0 0 0).outcome =
      Except.error QueryError.queryRuntime ∧
    (Interpret ⟨false, 0⟩ (fun _ => ⟨scanRootPlan, 0, sampleTable, 0⟩) []
        sampleStripped [] 0 0 0).events = [] :=
  ⟨((executePlan_no_output_symbols deleteRootPlan sampleStripped rfl).2.1
      sampleTable rfl).1,
   (executePlan_no_output_symbols scanRootPlan sampleStripped rfl).2.2.1
      sampleTable rfl,
   ((executePlan_no_output_symbols scanRootPlan sampleStripped rfl).2.2.2
      ⟨false, 0⟩ (fun _ => ⟨scanRootPlan, 0, sampleTable, 0⟩) [] [] 0 0 0
      rfl rfl rfl).1,
   ((executePlan_no_output_symbols scanRootPlan sampleStripped rfl).2.2.2
      ⟨false, 0⟩ (fun _ => ⟨scanRootPlan, 0, sampleTable, 0⟩) [] [] 0 0 0
      rfl rfl rfl).2⟩

/-- C6: every `Interpret` invocation that completes without error ends its
stream with a summary holding exactly the keys `parsing_time`,
`planning_time`, `plan_execution_time`, `cost_estimate` and `type`, and the
value bound to `type` is the string `"rw"` regardless of the query. -/
theorem interpret_summary_rw (cfg : Config)
    (compile : StrippedQuery → CachedPlan) (cache : PlanCache)
    (stripped : StrippedQuery) (params : List (String × TypedValue))
    (ft pt et : Int)
    (hok : (Interpret cfg compile cache stripped params ft pt et).outcome =
      Except.ok ()) :
    ∃ es sm,
      (Interpret cfg compile cache stripped params ft pt et).events =
        es ++ [StreamEvent.summary sm] ∧
      sm.map Prod.fst =
        ["parsing_time", "planning_time", "plan_execution_time",
         "cost_estimate", "type"] ∧
      sm.find? (fun q => q.1 == "type") =
        some ("type", TypedValue.str "rw") := by
  cases hpc : paramCheck stripped.parameters params with
  | some n => simp [Interpret, hpc] at hok
  | none =>
    cases her : (ExecutePlan (planPhase cfg compile cache stripped).plan.plan
        (planPhase cfg compile cache stripped).plan.symbolTable
        stripped).outcome with
    | error e => simp [Interpret, hpc, her] at hok
    | ok b =>
      refine ⟨(ExecutePlan (planPhase cfg compile cache stripped).plan.plan
          (planPhase cfg compile cache stripped).plan.symbolTable
          stripped).events,
        summaryFor ft pt et (planPhase cfg compile cache stripped).plan.cost,
        ?_, rfl, rfl⟩
      simp [Interpret, hpc, her]

/-- C6 witness: a concrete successful invocation ends with the summary whose
keys are the five summary keys and whose type is `"rw"`. -/
theorem interpret_summary_rw_witness :
    ∃ es sm,
      (Interpret ⟨false, 0⟩ (fun _ => ⟨deleteRootPlan, 0, sampleTable, 0⟩) []
          sampleStripped [] 0 0 0).events =
        es ++ [StreamEvent.summary sm] ∧
      sm.map Prod.fst =
        ["parsing_time", "planning_time", "plan_execution_time",
         "cost_estimate", "type"] ∧
      sm.find? (fun q => q.1 == "type") =
        some ("type", TypedValue.str "rw") :=
  interpret_summary_rw ⟨false, 0⟩ (fun _ => ⟨deleteRootPlan, 0, sampleTable, 0⟩)
    [] sampleStripped [] 0 0 0 rfl

/-- The lookup-or-compile phase never drops a cache entry except an expired
entry found at the query's own hash. -/
theorem planPhase_preserves (cfg : Config)
    (compile : StrippedQuery → CachedPlan) (cache : PlanCache)
    (stripped : StrippedQuery) :
    ∀ entry ∈ cache,
      entry ∈ (planPhase cfg compile cache stripped).planCache ∨
        (entry.1 = stripped.hash ∧
         ∃ p, cacheFind cache stripped.hash = some p ∧
           p.IsExpired cfg = true) := by
  intro entry hmem
  cases hf : cacheFind cache stripped.hash with
  | none =>
    left
    simp only [planPhase, cacheLookup, hf]
    cases hq : cfg.queryPlanCache <;> simp [hf, hmem]
  | some p =>
    cases hexp : p.IsExpired cfg with
    | false =>
      left
      simp [planPhase, cacheLookup, hf, hexp, hmem]
    | true =>
      by_cases hh : entry.1 = stripped.hash
      · right
        exact ⟨hh, p, rfl, hexp⟩
      · left
        have hrm : entry ∈ cacheRemove cache stripped.hash := by
          simp [cacheRemove, List.mem_filter, hmem, hh]
        have hfr := cacheFind_remove cache stripped.hash
        simp only [planPhase, cacheLookup, hf, hexp, if_true]
        cases hq : cfg.queryPlanCache <;> simp [hfr, hq, hrm]

/-- C1: when `Interpret` executes a `CreateIndex` plan and completes
successfully, every entry of the plan cache is removed; when execution fails,
the invalidation loop does not run — no cache entry is dropped, apart from
the normal TTL removal of an expired entry at the query's own hash during
lookup. -/
theorem interpret_create_index_invalidation (cfg : Config)
    (compile : StrippedQuery → CachedPlan) (cache : PlanCache)
    (stripped : StrippedQuery) (params : List (String × TypedValue))
    (ft pt et : Int) :
    ((planPhase cfg compile cache stripped).plan.plan.kind =
        OpKind.createIndex →
      (Interpret cfg compile cache stripped params ft pt et).outcome =
        Except.ok () →
      (Interpret cfg compile cache stripped params ft pt et).planCache =
        []) ∧
    (∀ e, (Interpret cfg compile cache stripped params ft pt et).outcome =
        Except.error e →
      ∀ entry ∈ cache,
        entry ∈
            (Interpret cfg compile cache stripped params ft pt et).planCache ∨
          (entry.1 = stripped.hash ∧
           ∃ p, cacheFind cache stripped.hash = some p ∧
             p.IsExpired cfg = true)) := by
  constructor
  · intro hkind hok
    cases hpc : paramCheck stripped.parameters params with
    | some n => simp [Interpret, hpc] at hok
    | none =>
      cases her : (ExecutePlan (planPhase cfg compile cache stripped).plan.plan
          (planPhase cfg compile cache stripped).plan.symbolTable
          stripped).outcome with
      | error e => simp [Interpret, hpc, her] at hok
      | ok b =>
        have hb := executePlan_ok_flag
          (planPhase cfg compile cache stripped).plan.plan
          (planPhase cfg compile cache stripped).plan.symbolTable stripped b her
        have hbt : b = true := by simp [hb, hkind]
        simp [Interpret, hpc, her, hbt]
  · intro e herr entry hmem
    cases hpc : paramCheck stripped.parameters params with
    | some n =>
      left
      simp only [Interpret, hpc]
      exact hmem
    | none =>
      cases her : (ExecutePlan (planPhase cfg compile cache stripped).plan.plan
          (planPhase cfg compile cache stripped).plan.symbolTable
          stripped).outcome with
      | error e2 =>
        rcases planPhase_preserves cfg compile cache stripped entry hmem
          with h | h
        · left
          simpa [Interpret, hpc, her] using h
        · right
          exact h
      | ok b =>
        exfalso
        simp [Interpret, hpc, her] at herr

/-- A cached `CreateIndex` plan. -/
def createIndexPlan : PlanModel := ⟨OpKind.createIndex, [], [], none⟩

/-- C1 witness: a successful concrete `CREATE INDEX` execution leaves the
cache empty, and a failing invocation over the same cache keeps its entry. -/
theorem interpret_create_index_invalidation_witness :
    (Interpret ⟨true, 10⟩ (fun _ => ⟨createIndexPlan, 0, SymbolTable.empty, 0⟩)
        [(3, freshEntry)] sampleStripped [] 0 0 0).planCache = [] ∧
    ((3, freshEntry) ∈
        (Interpret ⟨true, 10⟩
          (fun _ => ⟨createIndexPlan, 0, SymbolTable.empty, 0⟩)
          [(3, freshEntry)] sampleStrippedParam [] 0 0 0).planCache ∨
      ((3 : Nat) = sampleStrippedParam.hash ∧
       ∃ p, cacheFind [(3, freshEntry)] sampleStrippedParam.hash = some p ∧
         p.IsExpired ⟨true, 10⟩ = true)) :=
  ⟨(interpret_create_index_invalidation ⟨true, 10⟩
      (fun _ => ⟨createIndexPlan, 0, SymbolTable.empty, 0⟩)
      [(3, freshEntry)] sampleStripped [] 0 0 0).1 rfl rfl,
   (interpret_create_index_invalidation ⟨true, 10⟩
      (fun _ => ⟨createIndexPlan, 0, SymbolTable.empty, 0⟩)
      [(3, freshEntry)] sampleStrippedParam [] 0 0 0).2
      (QueryError.unprovidedParameter "p") rfl (3, freshEntry) (by decide)⟩
